import Mathlib

/-!
Shallow embedding of `src/app.py` (Shopify Redirect Matcher).

The Python helpers `normalize`, `fuzzy_match` and `translate_with_deepl`
become Lean functions; the Streamlit step-3 matching loop, the step-4
manual-review handler and the step-5 merge/export become explicit state
passing.  The rapidfuzz scorers `fuzz.token_set_ratio` and
`fuzz.partial_ratio` are external-library black boxes, so they are
parameters (`tsr`, `pr`) of type `String → String → ℚ`; what is embedded
is the tiering logic of `fuzzy_match` and `process.extractOne`'s
best-of-list selection (first entry wins ties, as rapidfuzz iterates
keeping the first strictly better score).  Fallible Python code (raising
`TypeError` when `extractOne` yields `None` on an empty choice list, or
`KeyError` on a missing dict key) is modelled with `Except String`.
-/

namespace App

/-- ASCII lower-case letter or digit: the character class kept by
`re.sub(r'[^a-z0-9\s]', '', text)` apart from whitespace. -/
def isLowerAlphaNum (c : Char) : Bool :=
  decide ((97 ≤ c.toNat ∧ c.toNat ≤ 122) ∨ (48 ≤ c.toNat ∧ c.toNat ≤ 57))

/-- Python's `\s` character class for `str` patterns (Unicode whitespace). -/
def pyIsSpace (c : Char) : Bool :=
  decide ((9 ≤ c.toNat ∧ c.toNat ≤ 13) ∨ (28 ≤ c.toNat ∧ c.toNat ≤ 32) ∨
    c.toNat = 133 ∨ c.toNat = 160 ∨ c.toNat = 5760 ∨
    (8192 ≤ c.toNat ∧ c.toNat ≤ 8202) ∨ c.toNat = 8232 ∨ c.toNat = 8233 ∨
    c.toNat = 8239 ∨ c.toNat = 8287 ∨ c.toNat = 12288)

/-- The characters kept by `re.sub(r'[^a-z0-9\s]', '', text)`. -/
def keepChar (c : Char) : Bool :=
  isLowerAlphaNum c || pyIsSpace c

/-- `str.lower`, modelled on ASCII.  Every character that survives the
`[^a-z0-9\s]` filter is ASCII, so non-ASCII case mappings are immaterial
to the normalized result. -/
def pyToLower (c : Char) : Char :=
  if 65 ≤ c.toNat ∧ c.toNat ≤ 90 then Char.ofNat (c.toNat + 32) else c

/-- `re.sub(r'[^a-z0-9\s]', '', ·)` on the character list. -/
def stripNonKept (l : List Char) : List Char :=
  l.filter keepChar

/-- `re.sub(r'\s+', ' ', ·)`: each maximal whitespace run becomes one
space (emitted at the last character of the run). -/
def collapseWs : List Char → List Char
  | [] => []
  | [c] => if pyIsSpace c then [' '] else [c]
  | c :: d :: cs =>
    if pyIsSpace c then
      if pyIsSpace d then collapseWs (d :: cs)
      else ' ' :: collapseWs (d :: cs)
    else c :: collapseWs (d :: cs)

/-- Left half of `str.strip`: drop leading whitespace. -/
def lstripWs (l : List Char) : List Char :=
  l.dropWhile pyIsSpace

/-- Right half of `str.strip`: drop trailing whitespace. -/
def rstripWs : List Char → List Char
  | [] => []
  | c :: cs =>
    match rstripWs cs with
    | [] => if pyIsSpace c then [] else [c]
    | t => c :: t

/-- Body of `normalize` on the character list: lower-case, strip the
non-`[a-z0-9\s]` characters, collapse whitespace runs, strip the ends. -/
def normalizeChars (l : List Char) : List Char :=
  rstripWs (lstripWs (collapseWs (stripNonKept (l.map pyToLower))))

/-- `normalize` from `src/app.py` on an actual string argument. -/
def normalize (s : String) : String :=
  String.mk (normalizeChars s.data)

/-- A Python value as far as `normalize`'s `isinstance(text, str)` check
is concerned: a string, or one of the non-string shapes an input cell can
take. -/
inductive PyVal where
  | str (s : String)
  | pyNone
  | pyInt (n : Int)
  | pyFloatNaN
deriving DecidableEq

/-- `isinstance(text, str)`. -/
def isStrVal : PyVal → Bool
  | .str _ => true
  | _ => false

/-- `normalize` from `src/app.py` including the
`if not isinstance(text, str): return ''` guard. -/
def normalizeVal : PyVal → String
  | .str s => normalize s
  | _ => ""

/-- `str.startswith`, modelled on the character lists. -/
def pyStartsWith (s p : String) : Bool :=
  p.data.isPrefixOf s.data

/-- Python dict lookup `d[q]` on an insertion-ordered association list
(`none` models a `KeyError`). -/
def alookup : List (String × String) → String → Option String
  | [], _ => none
  | (k, v) :: t, q => if k = q then some v else alookup t q

/-- Python dict insertion `d[k] = v`: an existing key keeps its position
and gets the new value (last write wins), a new key is appended. -/
def dinsert (k v : String) : List (String × String) → List (String × String)
  | [] => [(k, v)]
  | (k', v') :: t => if k' = k then (k', v) :: t else (k', v') :: dinsert k v t

/-- One row of `product_titles.csv`: `Product Title` and
`Product URL slug`. -/
structure ProductRow where
  title : String
  slug : String
deriving DecidableEq

/-- `title_map = dict(zip(product_df['normalized_title'], product_df['Product Title']))`. -/
def buildTitleMap (rows : List ProductRow) : List (String × String) :=
  rows.foldl (fun d r => dinsert (normalize r.title) r.title d) []

/-- `slug_map = dict(zip(product_df['normalized_title'], product_df['Product URL slug']))`. -/
def buildSlugMap (rows : List ProductRow) : List (String × String) :=
  rows.foldl (fun d r => dinsert (normalize r.title) r.slug d) []

/-- `titles = list(title_map.keys())`. -/
def indexTitles (rows : List ProductRow) : List String :=
  (buildTitleMap rows).map Prod.fst

/-- The last catalog row whose title normalizes to `q` (what a
last-write-wins dict retains for key `q`). -/
def lastMatch (q : String) (rows : List ProductRow) : Option ProductRow :=
  rows.foldl (fun acc r => if normalize r.title = q then some r else acc) none

/-- `rapidfuzz.process.extractOne(query, choices, scorer=f)` with the
default `processor=None` and no score cutoff: the highest-scoring choice,
the first one on ties, `none` when `choices` is empty. -/
def extractOne (f : String → String → ℚ) (q : String) : List String → Option (String × ℚ)
  | [] => none
  | c :: cs =>
    match extractOne f q cs with
    | none => some (c, f q c)
    | some (b, s) => if f q c < s then some (b, s) else some (c, f q c)

/-- `fuzzy_match` from `src/app.py`.  `tsr` and `pr` stand for
`fuzz.token_set_ratio` and `fuzz.partial_ratio`.  `.error "TypeError"`
models unpacking the `None` that `extractOne` returns on an empty choice
list; `.error "KeyError"` models a failing dict subscript.  The `.ok`
payload is the Python 4-tuple `(title, slug, score, method)`, with
`(none, none, none, none)` for the final `return None, None, None, None`. -/
def fuzzy_match (tsr pr : String → String → ℚ) (guess : String) (titles : List String)
    (title_map slug_map : List (String × String)) (threshold : ℚ) :
    Except String (Option String × Option String × Option ℚ × Option String) :=
  match extractOne tsr (normalize guess) titles with
  | none => .error "TypeError"
  | some (m, score) =>
    if threshold ≤ score then
      match alookup title_map m, alookup slug_map m with
      | some t, some sl => .ok (some t, some sl, some score, some "token_set_ratio")
      | _, _ => .error "KeyError"
    else
      match extractOne pr (normalize guess) titles with
      | none => .error "TypeError"
      | some (m2, score2) =>
        if (90 : ℚ) ≤ score2 then
          match alookup title_map m2, alookup slug_map m2 with
          | some t, some sl => .ok (some t, some sl, some score2, some "partial_ratio")
          | _, _ => .error "KeyError"
        else .ok (none, none, none, none)

/-- `translate_with_deepl`: the external DeepL call either returns text or
raises; the wrapper turns any exception `e` into the sentinel string
`f"TRANSLATION_FAILED: {e}"`. -/
def translate_with_deepl (translator : String → Except String String) (text : String) : String :=
  match translator text with
  | .ok s => s
  | .error e => "TRANSLATION_FAILED: " ++ e

/-- One translated broken-link row as seen by the step-3 loop:
`row['Redirect from']` and `row['translated_guess']`. -/
structure CandRow where
  redirect_from : String
  translated_guess : String
deriving DecidableEq

/-- The dict appended to `matches` in the step-3 loop.  `redirect_to`
holds the plain slug string (the loop only appends when `slug` is truthy,
i.e. a non-`None`, non-empty string); the remaining fields keep the raw
tuple components that `fuzzy_match` produced. -/
structure MatchResult where
  redirect_from : String
  redirect_to : String
  matched_title : Option String
  match_score : Option ℚ
  match_method : Option String
deriving DecidableEq

/-- The fate of a single row in the step-3 loop, assuming `fuzzy_match`
does not raise on it: `some` the appended match dict, or `none` when the
row goes to `unmatched` (failed translation, no match, or a falsy slug). -/
def classify (tsr pr : String → String → ℚ) (titles : List String)
    (tm sm : List (String × String)) (r : CandRow) : Option MatchResult :=
  if pyStartsWith r.translated_guess "TRANSLATION_FAILED" then none
  else
    match fuzzy_match tsr pr r.translated_guess titles tm sm 82 with
    | .error _ => none
    | .ok (t, sl, sc, me) =>
      match sl with
      | some s => if s = "" then none else some ⟨r.redirect_from, s, t, sc, me⟩
      | none => none

/-- The step-3 matching loop over `st.session_state.translated`: rows with
the `TRANSLATION_FAILED` prefix go straight to `unmatched`; otherwise
`fuzzy_match(guess, titles, title_map, slug_map)` runs (threshold default
82) and the row is appended to `matches` exactly when the returned slug is
truthy (`if slug:`).  An exception aborts the whole step. -/
def runPipeline (tsr pr : String → String → ℚ) (titles : List String)
    (tm sm : List (String × String)) :
    List CandRow → Except String (List MatchResult × List CandRow)
  | [] => .ok ([], [])
  | r :: rest =>
    if pyStartsWith r.translated_guess "TRANSLATION_FAILED" then
      match runPipeline tsr pr titles tm sm rest with
      | .error e => .error e
      | .ok (m, u) => .ok (m, r :: u)
    else
      match fuzzy_match tsr pr r.translated_guess titles tm sm 82 with
      | .error e => .error e
      | .ok (t, sl, sc, me) =>
        match sl with
        | some s =>
          if s = "" then
            match runPipeline tsr pr titles tm sm rest with
            | .error e => .error e
            | .ok (m, u) => .ok (m, r :: u)
          else
            match runPipeline tsr pr titles tm sm rest with
            | .error e => .error e
            | .ok (m, u) => .ok (⟨r.redirect_from, s, t, sc, me⟩ :: m, u)
        | none =>
          match runPipeline tsr pr titles tm sm rest with
          | .error e => .error e
          | .ok (m, u) => .ok (m, r :: u)

/-- `drop_duplicates(subset=["Redirect from"])` with the pandas default
`keep='first'`: keep a pair iff its source URL has not been seen yet. -/
def dedupBySource (seen : List String) : List (String × String) → List (String × String)
  | [] => []
  | (k, v) :: ps =>
    if k ∈ seen then dedupBySource seen ps
    else (k, v) :: dedupBySource (k :: seen) ps

/-- The step-5 merge: `pd.concat([final[["Redirect from", "Redirect to"]], manual])`
followed by `drop_duplicates(subset=["Redirect from"])`. -/
def mergeRedirects (auto manual : List (String × String)) : List (String × String) :=
  dedupBySource [] (auto ++ manual)

/-- An operator action in the step-4 radio widget: one of the offered
candidates (carrying its slug) or the skip entry. -/
inductive Decision where
  | select (slug : String)
  | skip
deriving DecidableEq

/-- Whether a decision selects a candidate (as opposed to skipping). -/
def isSelect : Decision → Bool
  | .select _ => true
  | .skip => false

/-- The step-4 review cursor: `st.session_state.manual_index` and
`st.session_state.manual_results`. -/
structure QueueState where
  manual_index : Nat
  manual_results : List (String × String)
deriving DecidableEq

/-- The `Save & Next` handler: it only exists while
`manual_index < len(unmatched_df)`; a selection appends
`{"Redirect from": ..., "Redirect to": slug}`, a skip appends nothing,
and `manual_index` is incremented either way. -/
def queueStep (unmatched : List CandRow) (st : QueueState) (d : Decision) : QueueState :=
  match unmatched[st.manual_index]? with
  | none => st
  | some row =>
    match d with
    | .select slug => ⟨st.manual_index + 1, st.manual_results ++ [(row.redirect_from, slug)]⟩
    | .skip => ⟨st.manual_index + 1, st.manual_results⟩

/-- A sequence of `Save & Next` submissions. -/
def runQueue (unmatched : List CandRow) (st : QueueState) (ds : List Decision) : QueueState :=
  ds.foldl (queueStep unmatched) st

/-- The `(redirect_from, slug)` pairs that a decision sequence starting at
queue position `i` appends: one pair per non-skip decision, in queue
order. -/
def decisionsFrom (unmatched : List CandRow) : Nat → List Decision → List (String × String)
  | _, [] => []
  | i, d :: ds =>
    (match d with
     | .select slug =>
       match unmatched[i]? with
       | some row => [(row.redirect_from, slug)]
       | none => []
     | .skip => []) ++ decisionsFrom unmatched (i + 1) ds

/-- The session state relevant to steps 4 and 5 once automatic matching
has completed: the stored match results, the unmatched rows, the review
cursor and the cached export. -/
structure Session where
  matched_final : List MatchResult
  unmatched : List CandRow
  manual_index : Nat
  manual_results : List (String × String)
  final_redirect_csv : Option (List (String × String))
deriving DecidableEq

/-- The `(Redirect from, Redirect to)` pairs of a non-empty automatic
results list (what the step-5 column selection yields when it succeeds). -/
def autoPairs (l : List MatchResult) : List (String × String) :=
  l.map fun mr => (mr.redirect_from, mr.redirect_to)

/-- `final[["Redirect from", "Redirect to"]]`: pandas column selection on
the DataFrame built from the `matches` list.  `pd.DataFrame([])` has no
columns, so when no row auto-matched the selection raises a `KeyError`;
otherwise it yields the two redirect columns. -/
def extractRedirectCols : List MatchResult → Except String (List (String × String))
  | [] => .error "KeyError"
  | l => .ok (autoPairs l)

/-- The step-5 export computation: select the redirect columns of the
automatic results (raising on an empty match list), concatenate the
manual results after them, and `drop_duplicates` by `Redirect from`
keeping the first occurrence. -/
def step5Merge (auto : List MatchResult) (manual : List (String × String)) :
    Except String (List (String × String)) :=
  match extractRedirectCols auto with
  | .error e => .error e
  | .ok pairs => .ok (mergeRedirects pairs manual)

/-- The step-5 block: when `st.session_state.final_redirect_csv is None`,
compute the merged redirect table and cache it.  When the merge raises
(empty automatic results), the exception aborts the script run before the
assignment, so the session state — in particular the `None` cache — is
unchanged. -/
def step5 (s : Session) : Session :=
  match s.final_redirect_csv with
  | some _ => s
  | none =>
    match step5Merge s.matched_final s.manual_results with
    | .error _ => s
    | .ok merged =>
      ⟨s.matched_final, s.unmatched, s.manual_index, s.manual_results, some merged⟩

/-- One Streamlit script run after matching has completed.  With no
pending click, steps 4 and 5 both render, so `step5` runs.  With a
pending `Save & Next` click and a current row, the handler records the
decision, advances the cursor and calls `st.rerun()`, which aborts the
script before step 5; with no current row the button does not exist, so
the run behaves like a click-free one. -/
def scriptRun (s : Session) (click : Option Decision) : Session :=
  match click with
  | none => step5 s
  | some d =>
    match s.unmatched[s.manual_index]? with
    | none => step5 s
    | some row =>
      match d with
      | .select slug =>
        ⟨s.matched_final, s.unmatched, s.manual_index + 1,
          s.manual_results ++ [(row.redirect_from, slug)], s.final_redirect_csv⟩
      | .skip =>
        ⟨s.matched_final, s.unmatched, s.manual_index + 1,
          s.manual_results, s.final_redirect_csv⟩

/-- The characters a normalized string is made of: ASCII lower-case
alphanumerics and the plain space. -/
def tameChar (c : Char) : Bool :=
  isLowerAlphaNum c || decide (c = ' ')

theorem pyIsSpace_spc : pyIsSpace ' ' = true := by decide

theorem alnum_not_space {c : Char} (h : isLowerAlphaNum c = true) :
    pyIsSpace c = false := by
  simp only [isLowerAlphaNum, decide_eq_true_eq] at h
  simp only [pyIsSpace, decide_eq_false_iff_not]
  omega

theorem tame_lower {c : Char} (h : tameChar c = true) : pyToLower c = c := by
  simp only [tameChar, Bool.or_eq_true, decide_eq_true_eq] at h
  rcases h with h | h
  · simp only [isLowerAlphaNum, decide_eq_true_eq] at h
    simp only [pyToLower]
    rw [if_neg]
    omega
  · subst h; decide

theorem tame_keep {c : Char} (h : tameChar c = true) : keepChar c = true := by
  simp only [tameChar, Bool.or_eq_true, decide_eq_true_eq] at h
  simp only [keepChar, Bool.or_eq_true]
  rcases h with h | h
  · exact Or.inl h
  · subst h; exact Or.inr pyIsSpace_spc

theorem tame_space_eq {c : Char} (h : tameChar c = true)
    (hs : pyIsSpace c = true) : c = ' ' := by
  simp only [tameChar, Bool.or_eq_true, decide_eq_true_eq] at h
  rcases h with h | h
  · rw [alnum_not_space h] at hs; cases hs
  · exact h

theorem keep_tame {c : Char} (h : keepChar c = true)
    (hs : pyIsSpace c = false) : tameChar c = true := by
  simp only [keepChar, Bool.or_eq_true] at h
  rcases h with h | h
  · simp [tameChar, h]
  · rw [h] at hs; cases hs

theorem mem_collapse : ∀ l : List Char, ∀ c ∈ collapseWs l,
    (c ∈ l ∧ pyIsSpace c = false) ∨ c = ' ' := by
  intro l
  induction l with
  | nil => simp [collapseWs]
  | cons a t ih =>
    cases t with
    | nil =>
      intro c hc
      by_cases ha : pyIsSpace a = true
      · simp [collapseWs, ha] at hc
        exact Or.inr hc
      · simp [collapseWs, ha] at hc
        refine Or.inl ⟨by simp [hc], ?_⟩
        rw [hc]
        exact Bool.eq_false_iff.mpr ha
    | cons d cs =>
      intro c hc
      by_cases ha : pyIsSpace a = true
      · by_cases hd : pyIsSpace d = true
        · simp only [collapseWs, ha, hd, if_true] at hc
          rcases ih c hc with ⟨hm, hns⟩ | hsp
          · exact Or.inl ⟨List.mem_cons_of_mem a hm, hns⟩
          · exact Or.inr hsp
        · simp only [collapseWs, ha, hd, if_true, if_false, Bool.false_eq_true,
            List.mem_cons] at hc
          rcases hc with hc | hc
          · exact Or.inr hc
          · rcases ih c hc with ⟨hm, hns⟩ | hsp
            · exact Or.inl ⟨List.mem_cons_of_mem a hm, hns⟩
            · exact Or.inr hsp
      · simp only [collapseWs, ha, Bool.false_eq_true, if_false, List.mem_cons] at hc
        rcases hc with hc | hc
        · refine Or.inl ⟨by simp [hc], ?_⟩
          rw [hc]
          exact Bool.eq_false_iff.mpr ha
        · rcases ih c hc with ⟨hm, hns⟩ | hsp
          · exact Or.inl ⟨List.mem_cons_of_mem a hm, hns⟩
          · exact Or.inr hsp

theorem collapse_head : ∀ (xs : List Char) (x : Char),
    (collapseWs (x :: xs)).head? = some (if pyIsSpace x = true then ' ' else x) := by
  intro xs
  induction xs with
  | nil =>
    intro x
    by_cases hx : pyIsSpace x = true <;> simp [collapseWs, hx]
  | cons d cs ih =>
    intro x
    by_cases hx : pyIsSpace x = true
    · by_cases hd : pyIsSpace d = true
      · simp only [collapseWs, hx, hd, if_true]
        rw [ih d]
        simp [hd, hx]
      · simp [collapseWs, hx, hd]
    · simp [collapseWs, hx]

/-- No two adjacent whitespace characters. -/
def noDS : List Char → Bool
  | [] => true
  | [_] => true
  | a :: b :: t => (!(pyIsSpace a && pyIsSpace b)) && noDS (b :: t)

theorem noDS_tail {a : Char} {t : List Char} (h : noDS (a :: t) = true) :
    noDS t = true := by
  cases t with
  | nil => rfl
  | cons b t' =>
    simp only [noDS, Bool.and_eq_true] at h
    exact h.2

theorem noDS_cons_cons {a b : Char} {t : List Char} :
    noDS (a :: b :: t) = true ↔
      ((pyIsSpace a = false ∨ pyIsSpace b = false) ∧ noDS (b :: t) = true) := by
  simp only [noDS, Bool.and_eq_true, Bool.not_eq_true', Bool.and_eq_false_iff]

theorem noDS_collapse : ∀ l : List Char, noDS (collapseWs l) = true := by
  intro l
  induction l with
  | nil => rfl
  | cons a t ih =>
    cases t with
    | nil =>
      by_cases ha : pyIsSpace a = true <;> simp [collapseWs, ha, noDS]
    | cons d cs =>
      by_cases ha : pyIsSpace a = true
      · by_cases hd : pyIsSpace d = true
        · simpa only [collapseWs, ha, hd, if_true] using ih
        · simp only [collapseWs, ha, hd, if_true, Bool.false_eq_true, if_false]
          cases hcol : collapseWs (d :: cs) with
          | nil => rfl
          | cons v tl =>
            have hv : v = d := by
              have h2 := collapse_head cs d
              rw [hcol] at h2
              simp only [List.head?_cons, Option.some.injEq, if_neg hd] at h2
              exact h2
            rw [noDS_cons_cons]
            refine ⟨Or.inr ?_, ?_⟩
            · rw [hv]; exact Bool.eq_false_iff.mpr hd
            · rw [← hcol]; exact ih
      · simp only [collapseWs, ha, Bool.false_eq_true, if_false]
        cases hcol : collapseWs (d :: cs) with
        | nil => rfl
        | cons v tl =>
          rw [noDS_cons_cons]
          refine ⟨Or.inl (Bool.eq_false_iff.mpr ha), ?_⟩
          rw [← hcol]; exact ih

theorem collapse_eq_self : ∀ l : List Char, (∀ c ∈ l, tameChar c = true) →
    noDS l = true → collapseWs l = l := by
  intro l
  induction l with
  | nil => intro _ _; rfl
  | cons a t ih =>
    cases t with
    | nil =>
      intro htame _
      by_cases ha : pyIsSpace a = true
      · have : a = ' ' := tame_space_eq (htame a (by simp)) ha
        simp [collapseWs, ha, this]
      · simp [collapseWs, ha]
    | cons d cs =>
      intro htame hds
      rw [noDS_cons_cons] at hds
      by_cases ha : pyIsSpace a = true
      · have hd : pyIsSpace d = false := by
          rcases hds.1 with h | h
          · rw [h] at ha; cases ha
          · exact h
        have haspc : a = ' ' := tame_space_eq (htame a (by simp)) ha
        simp only [collapseWs, ha, hd, if_true, Bool.false_eq_true, if_false]
        rw [ih (fun c hc => htame c (List.mem_cons_of_mem a hc)) hds.2, haspc]
      · simp only [collapseWs, ha, Bool.false_eq_true, if_false]
        rw [ih (fun c hc => htame c (List.mem_cons_of_mem a hc)) hds.2]

theorem mem_dropWhile {p : Char → Bool} : ∀ l : List Char, ∀ c ∈ l.dropWhile p, c ∈ l := by
  intro l
  induction l with
  | nil => simp
  | cons a t ih =>
    intro c hc
    rw [List.dropWhile_cons] at hc
    by_cases ha : p a = true
    · simp only [ha, if_true] at hc
      exact List.mem_cons_of_mem a (ih c hc)
    · simp only [ha, Bool.false_eq_true, if_false] at hc
      exact hc

theorem head_dropWhile {p : Char → Bool} : ∀ (l : List Char) (c : Char) (t : List Char),
    l.dropWhile p = c :: t → p c = false := by
  intro l
  induction l with
  | nil => intro c t h; cases h
  | cons a l' ih =>
    intro c t h
    rw [List.dropWhile_cons] at h
    by_cases ha : p a = true
    · simp only [ha, if_true] at h
      exact ih c t h
    · simp only [ha, Bool.false_eq_true, if_false] at h
      injection h with h1 _
      rw [← h1]
      exact Bool.eq_false_iff.mpr ha

theorem noDS_dropWhile {p : Char → Bool} : ∀ l : List Char, noDS l = true →
    noDS (l.dropWhile p) = true := by
  intro l
  induction l with
  | nil => intro _; rfl
  | cons a t ih =>
    intro h
    rw [List.dropWhile_cons]
    by_cases ha : p a = true
    · simp only [ha, if_true]
      exact ih (noDS_tail h)
    · simp only [ha, Bool.false_eq_true, if_false]
      exact h

theorem rstrip_cons_shape (c : Char) (cs : List Char) :
    rstripWs (c :: cs) = [] ∨ ∃ t, rstripWs (c :: cs) = c :: t := by
  cases h : rstripWs cs with
  | nil =>
    by_cases hc : pyIsSpace c = true
    · left; simp [rstripWs, h, hc]
    · right; exact ⟨[], by simp [rstripWs, h, hc]⟩
  | cons v tl =>
    right
    exact ⟨v :: tl, by simp [rstripWs, h]⟩

theorem mem_rstrip : ∀ l : List Char, ∀ c ∈ rstripWs l, c ∈ l := by
  intro l
  induction l with
  | nil => simp [rstripWs]
  | cons x xs ih =>
    intro c hc
    cases h : rstripWs xs with
    | nil =>
      simp only [rstripWs, h] at hc
      by_cases hx : pyIsSpace x = true
      · simp [hx] at hc
      · simp only [hx, Bool.false_eq_true, if_false, List.mem_singleton] at hc
        simp [hc]
    | cons v tl =>
      simp only [rstripWs, h, List.mem_cons] at hc
      rcases hc with hc | hc
      · simp [hc]
      · refine List.mem_cons_of_mem x (ih c ?_)
        rw [h]
        exact List.mem_cons.mpr hc

theorem noDS_rstrip : ∀ l : List Char, noDS l = true → noDS (rstripWs l) = true := by
  intro l
  induction l with
  | nil => intro _; rfl
  | cons x xs ih =>
    intro h
    cases hr : rstripWs xs with
    | nil =>
      by_cases hx : pyIsSpace x = true <;> simp [rstripWs, hr, hx, noDS]
    | cons v tl =>
      simp only [rstripWs, hr]
      cases xs with
      | nil => cases hr
      | cons y ys =>
        have hv : v = y := by
          rcases rstrip_cons_shape y ys with hsh | ⟨t', hsh⟩
          · rw [hsh] at hr; cases hr
          · rw [hsh] at hr
            injection hr with h1 _
            exact h1.symm
        rw [noDS_cons_cons]
        constructor
        · rw [noDS_cons_cons] at h
          rw [hv]
          exact h.1
        · rw [← hr]
          exact ih (noDS_tail h)

theorem rstrip_getLast : ∀ (l : List Char) (c : Char),
    (rstripWs l).getLast? = some c → pyIsSpace c = false := by
  intro l
  induction l with
  | nil => intro c h; cases h
  | cons x xs ih =>
    intro c h
    cases hr : rstripWs xs with
    | nil =>
      simp only [rstripWs, hr] at h
      by_cases hx : pyIsSpace x = true
      · simp [hx] at h
      · simp only [hx, Bool.false_eq_true, if_false, List.getLast?_singleton,
          Option.some.injEq] at h
        rw [← h]
        exact Bool.eq_false_iff.mpr hx
    | cons v tl =>
      simp only [rstripWs, hr, List.getLast?_cons_cons] at h
      exact ih c (hr ▸ h)

theorem rstrip_eq_self : ∀ l : List Char,
    (∀ c, l.getLast? = some c → pyIsSpace c = false) → rstripWs l = l := by
  intro l
  induction l with
  | nil => intro _; rfl
  | cons x xs ih =>
    intro h
    cases xs with
    | nil =>
      have hx : pyIsSpace x = false := h x rfl
      simp [rstripWs, hx]
    | cons y ys =>
      have hxs : rstripWs (y :: ys) = y :: ys := by
        apply ih
        intro c hc
        exact h c (by rw [List.getLast?_cons_cons]; exact hc)
      conv_lhs => rw [rstripWs, hxs]

theorem map_id_of_fix {f : Char → Char} : ∀ l : List Char,
    (∀ c ∈ l, f c = c) → l.map f = l := by
  intro l
  induction l with
  | nil => intro _; rfl
  | cons a t ih =>
    intro h
    simp only [List.map_cons]
    rw [h a (by simp), ih fun c hc => h c (List.mem_cons_of_mem a hc)]

theorem tame_normalizeChars : ∀ l : List Char, ∀ c ∈ normalizeChars l,
    tameChar c = true := by
  intro l c hc
  have h1 : c ∈ lstripWs (collapseWs (stripNonKept (l.map pyToLower))) :=
    mem_rstrip _ c hc
  have h2 : c ∈ collapseWs (stripNonKept (l.map pyToLower)) :=
    mem_dropWhile _ c h1
  rcases mem_collapse _ c h2 with ⟨h3, hns⟩ | hsp
  · have hk : keepChar c = true := (List.mem_filter.mp h3).2
    exact keep_tame hk hns
  · rw [hsp]
    simp [tameChar]

theorem noDS_normalizeChars (l : List Char) : noDS (normalizeChars l) = true :=
  noDS_rstrip _ (noDS_dropWhile _ (noDS_collapse _))

theorem head_normalizeChars {l : List Char} {c : Char} {t : List Char}
    (h : normalizeChars l = c :: t) : pyIsSpace c = false := by
  unfold normalizeChars at h
  cases hm : lstripWs (collapseWs (stripNonKept (l.map pyToLower))) with
  | nil => rw [hm] at h; cases h
  | cons y ys =>
    have hy : pyIsSpace y = false := head_dropWhile _ y ys hm
    rw [hm] at h
    rcases rstrip_cons_shape y ys with hsh | ⟨t', hsh⟩
    · rw [hsh] at h; cases h
    · rw [hsh] at h
      injection h with h1 _
      rw [← h1]
      exact hy

theorem getLast_normalizeChars {l : List Char} {c : Char}
    (h : (normalizeChars l).getLast? = some c) : pyIsSpace c = false :=
  rstrip_getLast _ c h

theorem normalizeChars_canon {m : List Char}
    (htame : ∀ c ∈ m, tameChar c = true)
    (hds : noDS m = true)
    (hhd : ∀ c t, m = c :: t → pyIsSpace c = false)
    (hlast : ∀ c, m.getLast? = some c → pyIsSpace c = false) :
    normalizeChars m = m := by
  have hmap : m.map pyToLower = m := map_id_of_fix m fun c hc => tame_lower (htame c hc)
  have hfil : stripNonKept m = m := List.filter_eq_self.mpr fun c hc => tame_keep (htame c hc)
  have hcol : collapseWs m = m := collapse_eq_self m htame hds
  have hls : lstripWs m = m := by
    cases hm : m with
    | nil => rfl
    | cons c t =>
      unfold lstripWs
      rw [List.dropWhile_cons, if_neg]
      rw [hhd c t hm]
      simp
  unfold normalizeChars
  rw [hmap, hfil, hcol, hls]
  exact rstrip_eq_self m hlast

theorem normalizeChars_idem (l : List Char) :
    normalizeChars (normalizeChars l) = normalizeChars l :=
  normalizeChars_canon (tame_normalizeChars l) (noDS_normalizeChars l)
    (fun _ _ h => head_normalizeChars h) (fun _ h => getLast_normalizeChars h)

/-- Claim C5: `normalize` is idempotent (`normalize(normalize(x)) ==
normalize(x)` for every string), it is a deterministic, side-effect-free
function (it is a plain Lean function of its argument), and on every
non-string or null input it returns the empty string instead of failing. -/
theorem c5_normalize_idempotent_total :
    (∀ v : PyVal, isStrVal v = false → normalizeVal v = "") ∧
    (∀ s : String, normalize (normalize s) = normalize s) := by
  constructor
  · intro v h
    cases v with
    | str s => cases h
    | pyNone => rfl
    | pyInt n => rfl
    | pyFloatNaN => rfl
  · intro s
    show String.mk (normalizeChars (normalizeChars s.data)) = String.mk (normalizeChars s.data)
    rw [normalizeChars_idem]

/-- Witness for C5 at concrete inputs: `normalize(None) == ''` and
idempotence on a messy concrete string. -/
theorem c5_witness :
    normalizeVal PyVal.pyNone = "" ∧
    normalize (normalize "  Blue,  Hoodie! 42 ") = normalize "  Blue,  Hoodie! 42 " :=
  ⟨c5_normalize_idempotent_total.1 PyVal.pyNone rfl,
    c5_normalize_idempotent_total.2 "  Blue,  Hoodie! 42 "⟩

theorem extractOne_eq_none {f : String → String → ℚ} {q : String} :
    ∀ l : List String, extractOne f q l = none ↔ l = [] := by
  intro l
  cases l with
  | nil => simp [extractOne]
  | cons c cs =>
    simp only [extractOne]
    constructor
    · intro h
      cases hrec : extractOne f q cs with
      | none => simp [hrec] at h
      | some p =>
        obtain ⟨b, s⟩ := p
        by_cases hlt : f q c < s
        · simp [hrec, hlt] at h
        · simp [hrec, hlt] at h
    · intro h; cases h

theorem extractOne_spec {f : String → String → ℚ} {q : String} :
    ∀ (l : List String) (m : String) (s : ℚ), extractOne f q l = some (m, s) →
      m ∈ l ∧ f q m = s ∧ ∀ x ∈ l, f q x ≤ s := by
  intro l
  induction l with
  | nil => intro m s h; cases h
  | cons c cs ih =>
    intro m s h
    simp only [extractOne] at h
    cases hrec : extractOne f q cs with
    | none =>
      simp only [hrec, Option.some.injEq, Prod.mk.injEq] at h
      obtain ⟨hm, hs⟩ := h
      subst hm
      subst hs
      have hcs : cs = [] := (extractOne_eq_none cs).mp hrec
      subst hcs
      refine ⟨by simp, rfl, ?_⟩
      intro x hx
      simp only [List.mem_singleton] at hx
      rw [hx]
    | some p =>
      obtain ⟨b, s0⟩ := p
      obtain ⟨hb, hfb, hall⟩ := ih b s0 hrec
      by_cases hlt : f q c < s0
      · simp only [hrec, if_pos hlt, Option.some.injEq, Prod.mk.injEq] at h
        obtain ⟨hm, hs⟩ := h
        subst hm
        subst hs
        refine ⟨List.mem_cons_of_mem c hb, hfb, ?_⟩
        intro x hx
        rcases List.mem_cons.mp hx with hx | hx
        · rw [hx]; exact le_of_lt hlt
        · exact hall x hx
      · simp only [hrec, if_neg hlt, Option.some.injEq, Prod.mk.injEq] at h
        obtain ⟨hm, hs⟩ := h
        subst hm
        subst hs
        push_neg at hlt
        refine ⟨by simp, rfl, ?_⟩
        intro x hx
        rcases List.mem_cons.mp hx with hx | hx
        · rw [hx]
        · exact le_trans (hall x hx) hlt

/-- Claim C1: if the highest token-set score between the normalized guess
and the catalog keys reaches the default first threshold 82, then
`fuzzy_match` returns the entry resolved from that highest-scoring key
(via `title_map` and `slug_map`) tagged `token_set_ratio`, for every
possible partial-ratio scorer — i.e. the partial-ratio tier is never
consulted. -/
theorem c1_token_set_tier (tsr : String → String → ℚ) (guess : String)
    (titles : List String) (tm sm : List (String × String)) (m : String) (s : ℚ)
    (hres : ∀ t ∈ titles, (alookup tm t).isSome ∧ (alookup sm t).isSome)
    (hbest : extractOne tsr (normalize guess) titles = some (m, s))
    (hs : (82 : ℚ) ≤ s) :
    (∀ x ∈ titles, tsr (normalize guess) x ≤ s) ∧
    ∃ t sl, alookup tm m = some t ∧ alookup sm m = some sl ∧
      ∀ pr, fuzzy_match tsr pr guess titles tm sm 82 =
        .ok (some t, some sl, some s, some "token_set_ratio") := by
  obtain ⟨hm, _, hmax⟩ := extractOne_spec titles m s hbest
  obtain ⟨htm, hsm⟩ := hres m hm
  obtain ⟨t, ht⟩ := Option.isSome_iff_exists.mp htm
  obtain ⟨sl, hsl⟩ := Option.isSome_iff_exists.mp hsm
  refine ⟨hmax, t, sl, ht, hsl, ?_⟩
  intro pr
  simp only [fuzzy_match, hbest, if_pos hs, ht, hsl]

/-- Claim C2: when the best token-set score is below 82, `fuzzy_match`
falls to the partial-ratio tier: a best partial score of at least 90
yields that key's resolved entry tagged `partial_ratio`, and the result
is the no-match tuple `(None, None, None, None)` exactly when the best
token-set score is below 82 and the best partial score is below 90. -/
theorem c2_partial_tier (tsr pr : String → String → ℚ) (guess : String)
    (titles : List String) (tm sm : List (String × String))
    (m1 m2 : String) (s1 s2 : ℚ)
    (hres : ∀ t ∈ titles, (alookup tm t).isSome ∧ (alookup sm t).isSome)
    (h1 : extractOne tsr (normalize guess) titles = some (m1, s1))
    (h2 : extractOne pr (normalize guess) titles = some (m2, s2)) :
    (∀ x ∈ titles, pr (normalize guess) x ≤ s2) ∧
    (s1 < 82 → (90 : ℚ) ≤ s2 →
      ∃ t sl, alookup tm m2 = some t ∧ alookup sm m2 = some sl ∧
        fuzzy_match tsr pr guess titles tm sm 82 =
          .ok (some t, some sl, some s2, some "partial_ratio")) ∧
    (fuzzy_match tsr pr guess titles tm sm 82 = .ok (none, none, none, none) ↔
      s1 < 82 ∧ s2 < 90) := by
  obtain ⟨hm2, _, hmax2⟩ := extractOne_spec titles m2 s2 h2
  obtain ⟨htm2, hsm2⟩ := hres m2 hm2
  obtain ⟨t2, ht2⟩ := Option.isSome_iff_exists.mp htm2
  obtain ⟨sl2, hsl2⟩ := Option.isSome_iff_exists.mp hsm2
  refine ⟨hmax2, ?_, ?_⟩
  · intro hlow h90
    refine ⟨t2, sl2, ht2, hsl2, ?_⟩
    simp only [fuzzy_match, h1, if_neg (not_le.mpr hlow), h2, if_pos h90, ht2, hsl2]
  · constructor
    · intro h
      by_cases hle : (82 : ℚ) ≤ s1
      · exfalso
        obtain ⟨hm1, _, _⟩ := extractOne_spec titles m1 s1 h1
        obtain ⟨htm1, hsm1⟩ := hres m1 hm1
        obtain ⟨t1, ht1⟩ := Option.isSome_iff_exists.mp htm1
        obtain ⟨sl1, hsl1⟩ := Option.isSome_iff_exists.mp hsm1
        simp only [fuzzy_match, h1, if_pos hle, ht1, hsl1] at h
        cases h
      · by_cases h90 : (90 : ℚ) ≤ s2
        · exfalso
          simp only [fuzzy_match, h1, if_neg hle, h2, if_pos h90, ht2, hsl2] at h
          cases h
        · exact ⟨not_le.mp hle, not_le.mp h90⟩
    · intro ⟨hlow, h90⟩
      simp only [fuzzy_match, h1, if_neg (not_le.mpr hlow), h2, if_neg (not_le.mpr h90)]

/-- Witness for C1: with a token-set scorer rating every key 95, the
guess "blue hoody" resolves to the "blue hoodie" catalog entry tagged
`token_set_ratio`, for every partial-ratio scorer. -/
theorem c1_witness :
    (∀ x ∈ ["blue hoodie"], (fun _ _ => (95 : ℚ)) (normalize "blue hoody") x ≤ 95) ∧
    ∃ t sl, alookup [("blue hoodie", "Blue Hoodie")] "blue hoodie" = some t ∧
      alookup [("blue hoodie", "blue-hoodie")] "blue hoodie" = some sl ∧
      ∀ pr, fuzzy_match (fun _ _ => (95 : ℚ)) pr "blue hoody" ["blue hoodie"]
          [("blue hoodie", "Blue Hoodie")] [("blue hoodie", "blue-hoodie")] 82 =
        .ok (some t, some sl, some 95, some "token_set_ratio") :=
  c1_token_set_tier (fun _ _ => (95 : ℚ)) "blue hoody" ["blue hoodie"]
    [("blue hoodie", "Blue Hoodie")] [("blue hoodie", "blue-hoodie")]
    "blue hoodie" 95 (by decide) rfl (by norm_num)

/-- Witness for C2: with a token-set scorer rating every key 50 and a
partial-ratio scorer rating every key 95, the partial tier fires and the
no-match characterization holds. -/
theorem c2_witness :
    (∀ x ∈ ["blue hoodie"], (fun _ _ => (95 : ℚ)) (normalize "hoody") x ≤ 95) ∧
    ((50 : ℚ) < 82 → (90 : ℚ) ≤ 95 →
      ∃ t sl, alookup [("blue hoodie", "Blue Hoodie")] "blue hoodie" = some t ∧
        alookup [("blue hoodie", "blue-hoodie")] "blue hoodie" = some sl ∧
        fuzzy_match (fun _ _ => (50 : ℚ)) (fun _ _ => (95 : ℚ)) "hoody" ["blue hoodie"]
            [("blue hoodie", "Blue Hoodie")] [("blue hoodie", "blue-hoodie")] 82 =
          .ok (some t, some sl, some 95, some "partial_ratio")) ∧
    (fuzzy_match (fun _ _ => (50 : ℚ)) (fun _ _ => (95 : ℚ)) "hoody" ["blue hoodie"]
        [("blue hoodie", "Blue Hoodie")] [("blue hoodie", "blue-hoodie")] 82 =
      .ok (none, none, none, none) ↔ (50 : ℚ) < 82 ∧ (95 : ℚ) < 90) :=
  c2_partial_tier (fun _ _ => (50 : ℚ)) (fun _ _ => (95 : ℚ)) "hoody" ["blue hoodie"]
    [("blue hoodie", "Blue Hoodie")] [("blue hoodie", "blue-hoodie")]
    "blue hoodie" "blue hoodie" 50 95 (by decide) rfl rfl

/-- Counterexample to C8: matching a guess against an empty catalog
raises.  `process.extractOne` returns `None` for an empty choice list and
the tuple unpacking in `fuzzy_match` then raises a `TypeError`, so the
claim that matching against an empty catalog does not raise is false. -/
theorem c8_counterexample :
    fuzzy_match (fun _ _ => (0 : ℚ)) (fun _ _ => (0 : ℚ)) "blue hoodie" [] [] [] 82 =
      .error "TypeError" := rfl

/-- Claim C8 as amended: for an empty candidate set the pipeline completes
without error and produces empty matched/unmatched sets (for any catalog
index); but matching a guess against an empty catalog always raises a
`TypeError`, so for an empty catalog the pipeline only completes if no row
reaches the matcher. -/
theorem c8_amended :
    (∀ (tsr pr : String → String → ℚ) (titles : List String)
      (tm sm : List (String × String)),
        runPipeline tsr pr titles tm sm [] = .ok ([], [])) ∧
    (∀ (tsr pr : String → String → ℚ) (guess : String)
      (tm sm : List (String × String)) (th : ℚ),
        fuzzy_match tsr pr guess [] tm sm th = .error "TypeError") :=
  ⟨fun _ _ _ _ _ => rfl, fun _ _ _ _ _ _ => rfl⟩

theorem fm_ok (tsr pr : String → String → ℚ) (g : String) (titles : List String)
    (tm sm : List (String × String)) (hne : titles ≠ [])
    (hres : ∀ t ∈ titles, (alookup tm t).isSome ∧ (alookup sm t).isSome) :
    ∃ out, fuzzy_match tsr pr g titles tm sm 82 = .ok out := by
  cases h1 : extractOne tsr (normalize g) titles with
  | none => exact absurd ((extractOne_eq_none titles).mp h1) hne
  | some p =>
    obtain ⟨m, s⟩ := p
    obtain ⟨hm, _, _⟩ := extractOne_spec titles m s h1
    obtain ⟨htm, hsm⟩ := hres m hm
    obtain ⟨t, ht⟩ := Option.isSome_iff_exists.mp htm
    obtain ⟨sl, hsl⟩ := Option.isSome_iff_exists.mp hsm
    by_cases hth : (82 : ℚ) ≤ s
    · exact ⟨(some t, some sl, some s, some "token_set_ratio"),
        by simp only [fuzzy_match, h1, if_pos hth, ht, hsl]⟩
    · cases h2 : extractOne pr (normalize g) titles with
      | none => exact absurd ((extractOne_eq_none titles).mp h2) hne
      | some p2 =>
        obtain ⟨m2, s2⟩ := p2
        obtain ⟨hm2, _, _⟩ := extractOne_spec titles m2 s2 h2
        obtain ⟨htm2, hsm2⟩ := hres m2 hm2
        obtain ⟨t2, ht2⟩ := Option.isSome_iff_exists.mp htm2
        obtain ⟨sl2, hsl2⟩ := Option.isSome_iff_exists.mp hsm2
        by_cases h90 : (90 : ℚ) ≤ s2
        · exact ⟨(some t2, some sl2, some s2, some "partial_ratio"),
            by simp only [fuzzy_match, h1, if_neg hth, h2, if_pos h90, ht2, hsl2]⟩
        · exact ⟨(none, none, none, none),
            by simp only [fuzzy_match, h1, if_neg hth, h2, if_neg h90]⟩

theorem length_partition {α β : Type} (f : α → Option β) : ∀ l : List α,
    (l.filterMap f).length + (l.filter fun a => (f a).isNone).length = l.length := by
  intro l
  induction l with
  | nil => rfl
  | cons a t ih =>
    cases hf : f a with
    | none =>
      simp only [List.filterMap_cons, List.filter_cons, hf, Option.isNone_none,
        if_true, List.length_cons]
      omega
    | some b =>
      simp only [List.filterMap_cons, List.filter_cons, hf, Option.isNone_some,
        Bool.false_eq_true, if_false, List.length_cons]
      omega

theorem runPipeline_partition (tsr pr : String → String → ℚ) (titles : List String)
    (tm sm : List (String × String)) (hne : titles ≠ [])
    (hres : ∀ t ∈ titles, (alookup tm t).isSome ∧ (alookup sm t).isSome) :
    ∀ rows : List CandRow, runPipeline tsr pr titles tm sm rows =
      .ok (rows.filterMap (classify tsr pr titles tm sm),
        rows.filter fun r => (classify tsr pr titles tm sm r).isNone) := by
  intro rows
  induction rows with
  | nil => rfl
  | cons r rest ih =>
    simp only [runPipeline]
    by_cases hmark : pyStartsWith r.translated_guess "TRANSLATION_FAILED" = true
    · have hCr : classify tsr pr titles tm sm r = none := by
        simp [classify, hmark]
      rw [if_pos hmark, ih]
      simp [List.filterMap_cons, List.filter_cons, hCr]
    · have hmark' : pyStartsWith r.translated_guess "TRANSLATION_FAILED" = false :=
        Bool.eq_false_iff.mpr hmark
      rw [if_neg hmark]
      obtain ⟨out, hout⟩ := fm_ok tsr pr r.translated_guess titles tm sm hne hres
      obtain ⟨t, sl, sc, me⟩ := out
      simp only [hout]
      cases sl with
      | none =>
        have hCr : classify tsr pr titles tm sm r = none := by
          simp [classify, hmark', hout]
        rw [ih]
        simp [List.filterMap_cons, List.filter_cons, hCr]
      | some s =>
        by_cases hs : s = ""
        · have hCr : classify tsr pr titles tm sm r = none := by
            simp [classify, hmark', hout, hs]
          rw [ih]
          simp [hs, List.filterMap_cons, List.filter_cons, hCr]
        · have hCr : classify tsr pr titles tm sm r =
              some ⟨r.redirect_from, s, t, sc, me⟩ := by
            simp [classify, hmark', hout, hs]
          rw [ih]
          simp [hs, List.filterMap_cons, List.filter_cons, hCr]

/-- Claim C4 as amended: for every candidate row sequence and every catalog
index that has at least one key and resolves each of its keys, the step-3
loop partitions the rows exhaustively and disjointly — it returns, in
input order, the rows classified as matches and the remaining rows, and
the two output lengths sum to the input length; rows whose guess carries
the `TRANSLATION_FAILED` marker are classified unmatched for every scorer
pair and every index, i.e. without the matcher being consulted.  (The
unamended claim, quantified over every index, fails: with an empty index a
non-marked row makes `fuzzy_match` raise, and the row reaches neither
output.) -/
theorem c4_partition (tsr pr : String → String → ℚ) (titles : List String)
    (tm sm : List (String × String)) (rows : List CandRow) (hne : titles ≠ [])
    (hres : ∀ t ∈ titles, (alookup tm t).isSome ∧ (alookup sm t).isSome) :
    runPipeline tsr pr titles tm sm rows =
      .ok (rows.filterMap (classify tsr pr titles tm sm),
        rows.filter fun r => (classify tsr pr titles tm sm r).isNone) ∧
    (rows.filterMap (classify tsr pr titles tm sm)).length +
      (rows.filter fun r => (classify tsr pr titles tm sm r).isNone).length =
        rows.length ∧
    ∀ r ∈ rows, pyStartsWith r.translated_guess "TRANSLATION_FAILED" = true →
      ∀ (tsr' pr' : String → String → ℚ) (titles' : List String)
        (tm' sm' : List (String × String)),
          classify tsr' pr' titles' tm' sm' r = none := by
  refine ⟨runPipeline_partition tsr pr titles tm sm hne hres rows,
    length_partition (classify tsr pr titles tm sm) rows, ?_⟩
  intro r _ hmark tsr' pr' titles' tm' sm'
  simp [classify, hmark]

/-- Counterexample to C4: with an empty catalog index, a candidate row
whose guess did not fail translation makes the matching loop raise a
`TypeError`, so that row is appended to neither `matched` nor
`unmatched` — the partition is not exhaustive for every index. -/
theorem c4_counterexample :
    runPipeline (fun _ _ => (0 : ℚ)) (fun _ _ => (0 : ℚ)) [] [] []
      [⟨"/de/products/blaue-jacke", "blue jacket"⟩] = .error "TypeError" := rfl

/-- Witness for C4 at a concrete input: one failed-translation row and one
matchable row against a one-entry catalog. -/
theorem c4_witness :
    runPipeline (fun _ _ => (95 : ℚ)) (fun _ _ => (0 : ℚ)) ["blue hoodie"]
        [("blue hoodie", "Blue Hoodie")] [("blue hoodie", "blue-hoodie")]
        [⟨"a", "TRANSLATION_FAILED: boom"⟩, ⟨"b", "blue hoody"⟩] =
      .ok ([⟨"a", "TRANSLATION_FAILED: boom"⟩, ⟨"b", "blue hoody"⟩].filterMap
          (classify (fun _ _ => (95 : ℚ)) (fun _ _ => (0 : ℚ)) ["blue hoodie"]
            [("blue hoodie", "Blue Hoodie")] [("blue hoodie", "blue-hoodie")]),
        [⟨"a", "TRANSLATION_FAILED: boom"⟩, ⟨"b", "blue hoody"⟩].filter fun r =>
          (classify (fun _ _ => (95 : ℚ)) (fun _ _ => (0 : ℚ)) ["blue hoodie"]
            [("blue hoodie", "Blue Hoodie")] [("blue hoodie", "blue-hoodie")] r).isNone) ∧
    ([⟨"a", "TRANSLATION_FAILED: boom"⟩, ⟨"b", "blue hoody"⟩].filterMap
        (classify (fun _ _ => (95 : ℚ)) (fun _ _ => (0 : ℚ)) ["blue hoodie"]
          [("blue hoodie", "Blue Hoodie")] [("blue hoodie", "blue-hoodie")])).length +
      ([⟨"a", "TRANSLATION_FAILED: boom"⟩, ⟨"b", "blue hoody"⟩].filter fun r =>
        (classify (fun _ _ => (95 : ℚ)) (fun _ _ => (0 : ℚ)) ["blue hoodie"]
          [("blue hoodie", "Blue Hoodie")] [("blue hoodie", "blue-hoodie")] r).isNone).length =
        ([⟨"a", "TRANSLATION_FAILED: boom"⟩, ⟨"b", "blue hoody"⟩] : List CandRow).length ∧
    ∀ r ∈ ([⟨"a", "TRANSLATION_FAILED: boom"⟩, ⟨"b", "blue hoody"⟩] : List CandRow),
      pyStartsWith r.translated_guess "TRANSLATION_FAILED" = true →
      ∀ (tsr' pr' : String → String → ℚ) (titles' : List String)
        (tm' sm' : List (String × String)),
          classify tsr' pr' titles' tm' sm' r = none :=
  c4_partition (fun _ _ => (95 : ℚ)) (fun _ _ => (0 : ℚ)) ["blue hoodie"]
    [("blue hoodie", "Blue Hoodie")] [("blue hoodie", "blue-hoodie")]
    [⟨"a", "TRANSLATION_FAILED: boom"⟩, ⟨"b", "blue hoody"⟩]
    (by decide) (by decide)

theorem isPrefixOf_append_self : ∀ l t : List Char, l.isPrefixOf (l ++ t) = true := by
  intro l t
  induction l with
  | nil => simp [List.isPrefixOf]
  | cons c cs ih => simp [List.isPrefixOf, ih]

/-- Claim C9: translation failure is encoded and detected purely by string
prefix.  On any exception `e` the wrapper returns exactly
`"TRANSLATION_FAILED: " ++ e`, which starts with the marker; the step-3
loop routes a row to unmatched without consulting the matcher exactly when
its guess starts with the marker (for a non-marked row the matcher runs —
with an empty index it even raises); hence a successful translation that
happens to begin with `TRANSLATION_FAILED` is routed to unmatched and
never matched. -/
theorem c9_failure_marker (tr : String → Except String String) (text e : String)
    (r : CandRow) :
    (tr text = .error e →
      translate_with_deepl tr text = "TRANSLATION_FAILED: " ++ e ∧
      pyStartsWith (translate_with_deepl tr text) "TRANSLATION_FAILED" = true) ∧
    (pyStartsWith r.translated_guess "TRANSLATION_FAILED" = true →
      ∀ (tsr pr : String → String → ℚ) (titles : List String)
        (tm sm : List (String × String)),
          runPipeline tsr pr titles tm sm [r] = .ok ([], [r])) ∧
    (pyStartsWith r.translated_guess "TRANSLATION_FAILED" = false →
      ∀ tsr pr : String → String → ℚ,
        runPipeline tsr pr [] [] [] [r] = .error "TypeError") := by
  refine ⟨?_, ?_, ?_⟩
  · intro h
    have heq : translate_with_deepl tr text = "TRANSLATION_FAILED: " ++ e := by
      simp [translate_with_deepl, h]
    refine ⟨heq, ?_⟩
    rw [heq]
    have hdat : ("TRANSLATION_FAILED: " ++ e).data =
        "TRANSLATION_FAILED".data ++ (": ".data ++ e.data) := by
      rw [String.data_append]
      have hsplit : ("TRANSLATION_FAILED: ").data =
          "TRANSLATION_FAILED".data ++ (": ").data := by decide
      rw [hsplit, List.append_assoc]
    simp only [pyStartsWith, hdat]
    exact isPrefixOf_append_self _ _
  · intro hmark tsr pr titles tm sm
    simp [runPipeline, hmark]
  · intro hmark tsr pr
    simp [runPipeline, hmark, fuzzy_match, extractOne]

/-- Witness for C9: a raising translator yields the marked sentinel; a row
whose guess begins with the marker (here a successful translation that
merely looks like the sentinel) goes to unmatched even against an empty
index; a non-marked row reaches the matcher (and raises on the empty
index). -/
theorem c9_witness :
    (translate_with_deepl (fun _ => .error "boom") "blaue jacke" =
        "TRANSLATION_FAILED: boom" ∧
      pyStartsWith (translate_with_deepl (fun _ => .error "boom") "blaue jacke")
        "TRANSLATION_FAILED" = true) ∧
    runPipeline (fun _ _ => (0 : ℚ)) (fun _ _ => (0 : ℚ)) [] [] []
      [⟨"u", "TRANSLATION_FAILED but actually a real translation"⟩] =
      .ok ([], [⟨"u", "TRANSLATION_FAILED but actually a real translation"⟩]) ∧
    runPipeline (fun _ _ => (0 : ℚ)) (fun _ _ => (0 : ℚ)) [] [] []
      [⟨"u", "blue jacket"⟩] = .error "TypeError" :=
  ⟨(c9_failure_marker (fun _ => .error "boom") "blaue jacke" "boom" ⟨"u", "x"⟩).1 rfl,
    (c9_failure_marker (fun _ => .error "boom") "blaue jacke" "boom"
        ⟨"u", "TRANSLATION_FAILED but actually a real translation"⟩).2.1 (by decide)
      (fun _ _ => (0 : ℚ)) (fun _ _ => (0 : ℚ)) [] [] [],
    (c9_failure_marker (fun _ => .error "boom") "blaue jacke" "boom"
        ⟨"u", "blue jacket"⟩).2.2 (by decide)
      (fun _ _ => (0 : ℚ)) (fun _ _ => (0 : ℚ))⟩

theorem dedup_sublist : ∀ (l : List (String × String)) (seen : List String),
    (dedupBySource seen l).Sublist l := by
  intro l
  induction l with
  | nil => intro seen; simp [dedupBySource]
  | cons p ps ih =>
    intro seen
    obtain ⟨k, v⟩ := p
    simp only [dedupBySource]
    by_cases hk : k ∈ seen
    · rw [if_pos hk]
      exact List.Sublist.cons (k, v) (ih seen)
    · rw [if_neg hk]
      exact List.Sublist.cons₂ (k, v) (ih (k :: seen))

theorem dedup_keys_nodup : ∀ (l : List (String × String)) (seen : List String),
    ((dedupBySource seen l).map Prod.fst).Nodup ∧
    ∀ q ∈ (dedupBySource seen l).map Prod.fst, q ∉ seen := by
  intro l
  induction l with
  | nil => intro seen; simp [dedupBySource]
  | cons p ps ih =>
    intro seen
    obtain ⟨k, v⟩ := p
    simp only [dedupBySource]
    by_cases hk : k ∈ seen
    · rw [if_pos hk]
      exact ih seen
    · rw [if_neg hk]
      obtain ⟨hnd, hout⟩ := ih (k :: seen)
      refine ⟨?_, ?_⟩
      · simp only [List.map_cons, List.nodup_cons]
        refine ⟨?_, hnd⟩
        intro hmem
        exact hout k hmem (List.mem_cons_self k seen)
      · intro q hq
        simp only [List.map_cons, List.mem_cons] at hq
        rcases hq with hq | hq
        · rw [hq]; exact hk
        · intro hqs
          exact hout q hq (List.mem_cons_of_mem k hqs)

theorem dedup_find : ∀ (l : List (String × String)) (seen : List String) (q : String),
    q ∉ seen →
    List.find? (fun p => p.1 == q) (dedupBySource seen l) =
      List.find? (fun p => p.1 == q) l := by
  intro l
  induction l with
  | nil => intro seen q _; rfl
  | cons p ps ih =>
    intro seen q hq
    obtain ⟨k, v⟩ := p
    simp only [dedupBySource]
    by_cases hk : k ∈ seen
    · rw [if_pos hk]
      have hne : ((k, v).1 == q) = false := by
        simp only [beq_eq_false_iff_ne, ne_eq]
        intro hkq
        exact hq (hkq ▸ hk)
      rw [List.find?_cons_of_neg _ (by simp [hne]), ih seen q hq]
    · rw [if_neg hk]
      by_cases hkq : k = q
      · subst hkq
        rw [List.find?_cons_of_pos _ (by simp), List.find?_cons_of_pos _ (by simp)]
      · have hne : ((k, v).1 == q) = false := by
          simp only [beq_eq_false_iff_ne, ne_eq]
          exact hkq
        rw [List.find?_cons_of_neg _ (by simp [hne]),
          List.find?_cons_of_neg _ (by simp [hne])]
        refine ih (k :: seen) q ?_
        intro hmem
        rcases List.mem_cons.mp hmem with h | h
        · exact hkq h.symm
        · exact hq h

/-- Counterexample to C3: the claim quantifies over every sequence of
automatic match results, but with no automatic match the step-5 column
selection `final[["Redirect from", "Redirect to"]]` raises a `KeyError`
(`pd.DataFrame([])` has no columns) and no merged output is produced —
even when manual decisions exist. -/
theorem c3_counterexample :
    step5Merge [] [("A", "Y")] = .error "KeyError" := rfl

/-- Claim C3 as amended: when at least one automatic match exists, the
step-5 export concatenates the automatic `(Redirect from, Redirect to)`
pairs before the manual ones and deduplicates by source URL keeping the
first occurrence — the merged table is a subsequence of the concatenation
whose source URLs are pairwise distinct, the retained entry for each URL
is the first occurrence of the concatenation, and in particular
`matched=[A→X]`, `manual=[A→Y]` merges to exactly `[A→X]`.  (Unamended,
the claim fails at `matched=[]`, where the column selection raises and no
output is produced.) -/
theorem c3_merge_first_wins (auto : List MatchResult)
    (manual : List (String × String)) (hne : auto ≠ []) :
    step5Merge auto manual = .ok (mergeRedirects (autoPairs auto) manual) ∧
    (mergeRedirects (autoPairs auto) manual).Sublist (autoPairs auto ++ manual) ∧
    ((mergeRedirects (autoPairs auto) manual).map Prod.fst).Nodup ∧
    (∀ q, List.find? (fun p => p.1 == q) (mergeRedirects (autoPairs auto) manual) =
      List.find? (fun p => p.1 == q) (autoPairs auto ++ manual)) ∧
    step5Merge [⟨"A", "X", none, none, none⟩] [("A", "Y")] = .ok [("A", "X")] := by
  refine ⟨?_, dedup_sublist (autoPairs auto ++ manual) [],
    (dedup_keys_nodup (autoPairs auto ++ manual) []).1,
    fun q => dedup_find (autoPairs auto ++ manual) [] q (List.not_mem_nil q),
    rfl⟩
  cases auto with
  | nil => exact absurd rfl hne
  | cons a l => simp [step5Merge, extractRedirectCols]

/-- Witness for C3 at a concrete input: `matched=[A→X]`, `manual=[A→Y]`. -/
theorem c3_witness :
    step5Merge [⟨"A", "X", none, none, none⟩] [("A", "Y")] =
      .ok (mergeRedirects (autoPairs [⟨"A", "X", none, none, none⟩]) [("A", "Y")]) ∧
    (mergeRedirects (autoPairs [⟨"A", "X", none, none, none⟩]) [("A", "Y")]).Sublist
      (autoPairs [⟨"A", "X", none, none, none⟩] ++ [("A", "Y")]) ∧
    ((mergeRedirects (autoPairs [⟨"A", "X", none, none, none⟩])
      [("A", "Y")]).map Prod.fst).Nodup ∧
    (∀ q, List.find? (fun p => p.1 == q)
        (mergeRedirects (autoPairs [⟨"A", "X", none, none, none⟩]) [("A", "Y")]) =
      List.find? (fun p => p.1 == q)
        (autoPairs [⟨"A", "X", none, none, none⟩] ++ [("A", "Y")])) ∧
    step5Merge [⟨"A", "X", none, none, none⟩] [("A", "Y")] = .ok [("A", "X")] :=
  c3_merge_first_wins [⟨"A", "X", none, none, none⟩] [("A", "Y")] (by simp)

theorem lookup_dinsert : ∀ (d : List (String × String)) (k v q : String),
    alookup (dinsert k v d) q = if k = q then some v else alookup d q := by
  intro d
  induction d with
  | nil => intro k v q; rfl
  | cons p t ih =>
    intro k v q
    obtain ⟨k', v'⟩ := p
    simp only [dinsert]
    by_cases hk : k' = k
    · subst hk
      rw [if_pos rfl]
      by_cases hq : k' = q
      · simp only [alookup, if_pos hq]
      · simp only [alookup, if_neg hq]
    · rw [if_neg hk]
      by_cases hq : k' = q
      · have hkq : ¬k = q := fun hkq => hk (hkq.trans hq.symm).symm
        simp only [alookup]
        rw [if_pos hq, if_neg hkq, if_pos hq]
      · simp only [alookup]
        rw [if_neg hq, if_neg hq, ih k v q]

theorem lookup_build (f : ProductRow → String) :
    ∀ (rows : List ProductRow) (d : List (String × String)) (acc : Option ProductRow)
      (q : String), alookup d q = acc.map f →
      alookup (rows.foldl (fun d r => dinsert (normalize r.title) (f r) d) d) q =
        (rows.foldl (fun acc r => if normalize r.title = q then some r else acc) acc).map f := by
  intro rows
  induction rows with
  | nil => intro d acc q h; exact h
  | cons r rs ih =>
    intro d acc q h
    simp only [List.foldl_cons]
    refine ih _ _ q ?_
    rw [lookup_dinsert]
    by_cases hr : normalize r.title = q
    · rw [if_pos hr, if_pos hr]
      rfl
    · rw [if_neg hr, if_neg hr, h]

/-- Claim C6: building the catalog index maps each normalized title to the
`(title, slug)` of the last catalog row normalizing to it — so on a key
collision between two distinct rows the last-inserted row's title and slug
are retained by both `title_map` and `slug_map`, as the concrete
colliding catalog `["Blue, Hoodie!" → first-slug, "Blue Hoodie" →
second-slug]` shows. -/
theorem c6_last_write_wins :
    (∀ (rows : List ProductRow) (q : String),
      alookup (buildTitleMap rows) q = (lastMatch q rows).map ProductRow.title ∧
      alookup (buildSlugMap rows) q = (lastMatch q rows).map ProductRow.slug) ∧
    normalize "Blue, Hoodie!" = "blue hoodie" ∧
    normalize "Blue Hoodie" = "blue hoodie" ∧
    alookup (buildTitleMap [⟨"Blue, Hoodie!", "first-slug"⟩,
      ⟨"Blue Hoodie", "second-slug"⟩]) "blue hoodie" = some "Blue Hoodie" ∧
    alookup (buildSlugMap [⟨"Blue, Hoodie!", "first-slug"⟩,
      ⟨"Blue Hoodie", "second-slug"⟩]) "blue hoodie" = some "second-slug" := by
  refine ⟨?_, by decide, by decide, by decide, by decide⟩
  intro rows q
  exact ⟨lookup_build ProductRow.title rows [] none q rfl,
    lookup_build ProductRow.slug rows [] none q rfl⟩

theorem c7_queue_advances (unmatched : List CandRow) :
    ∀ (ds : List Decision) (st : QueueState),
      st.manual_index + ds.length ≤ unmatched.length →
      (runQueue unmatched st ds).manual_index = st.manual_index + ds.length ∧
      (runQueue unmatched st ds).manual_results =
        st.manual_results ++ decisionsFrom unmatched st.manual_index ds ∧
      (decisionsFrom unmatched st.manual_index ds).length = ds.countP isSelect := by
  intro ds
  induction ds with
  | nil =>
    intro st _
    refine ⟨rfl, by simp [decisionsFrom, runQueue], by simp [decisionsFrom]⟩
  | cons d rest ih =>
    intro st h
    have hlt : st.manual_index < unmatched.length := by
      simp only [List.length_cons] at h
      omega
    have hrow : unmatched[st.manual_index]? = some unmatched[st.manual_index] :=
      List.getElem?_eq_getElem hlt
    have hle : st.manual_index + 1 + rest.length ≤ unmatched.length := by
      simp only [List.length_cons] at h
      omega
    cases d with
    | select slug =>
      have hstep : queueStep unmatched st (.select slug) = ⟨st.manual_index + 1,
          st.manual_results ++ [(unmatched[st.manual_index].redirect_from, slug)]⟩ := by
        simp [queueStep, hrow]
      have hdf : decisionsFrom unmatched st.manual_index (.select slug :: rest) =
          (unmatched[st.manual_index].redirect_from, slug) ::
            decisionsFrom unmatched (st.manual_index + 1) rest := by
        simp [decisionsFrom, hrow]
      obtain ⟨hidx, hres, hlen⟩ := ih ⟨st.manual_index + 1,
        st.manual_results ++ [(unmatched[st.manual_index].redirect_from, slug)]⟩ hle
      have hrun : runQueue unmatched st (.select slug :: rest) =
          runQueue unmatched ⟨st.manual_index + 1,
            st.manual_results ++ [(unmatched[st.manual_index].redirect_from, slug)]⟩ rest := by
        show runQueue unmatched (queueStep unmatched st (.select slug)) rest = _
        rw [hstep]
      rw [hrun, hdf]
      refine ⟨?_, ?_, ?_⟩
      · rw [hidx]
        simp only [List.length_cons]
        omega
      · rw [hres]
        simp
      · simp only [List.length_cons, List.countP_cons, isSelect]
        rw [hlen]
        simp
    | skip =>
      have hstep : queueStep unmatched st .skip =
          ⟨st.manual_index + 1, st.manual_results⟩ := by
        simp [queueStep, hrow]
      have hdf : decisionsFrom unmatched st.manual_index (.skip :: rest) =
          decisionsFrom unmatched (st.manual_index + 1) rest := by
        simp [decisionsFrom]
      obtain ⟨hidx, hres, hlen⟩ := ih ⟨st.manual_index + 1, st.manual_results⟩ hle
      have hrun : runQueue unmatched st (.skip :: rest) =
          runQueue unmatched ⟨st.manual_index + 1, st.manual_results⟩ rest := by
        show runQueue unmatched (queueStep unmatched st .skip) rest = _
        rw [hstep]
      rw [hrun, hdf]
      refine ⟨?_, ?_, ?_⟩
      · rw [hidx]
        simp only [List.length_cons]
        omega
      · rw [hres]
      · rw [hlen]
        simp [List.countP_cons, isSelect]

/-- Claim C7: over any unmatched set, submitting `k` decisions (any mix of
selections and skips, necessarily while items remain) advances the queue
position by exactly `k` — in particular it never moves backward — and the
recorded decisions are exactly one `(Redirect from, Redirect to)` pair per
non-skip submission, appended in queue order, so their number equals the
number of non-skip submissions. -/
theorem c7_queue (unmatched : List CandRow) (ds : List Decision) (st : QueueState)
    (h : st.manual_index + ds.length ≤ unmatched.length) :
    (runQueue unmatched st ds).manual_index = st.manual_index + ds.length ∧
    st.manual_index ≤ (runQueue unmatched st ds).manual_index ∧
    (runQueue unmatched st ds).manual_results =
      st.manual_results ++ decisionsFrom unmatched st.manual_index ds ∧
    (decisionsFrom unmatched st.manual_index ds).length = ds.countP isSelect := by
  obtain ⟨hidx, hres, hlen⟩ := c7_queue_advances unmatched ds st h
  exact ⟨hidx, by omega, hres, hlen⟩

/-- Witness for C7: two unmatched rows, the operator selects a candidate
for the first and skips the second: position ends at 2 and exactly one
decision is recorded. -/
theorem c7_witness :
    (runQueue [⟨"a", "g1"⟩, ⟨"b", "g2"⟩] ⟨0, []⟩
      [Decision.select "slug-1", Decision.skip]).manual_index = 0 + 2 ∧
    0 ≤ (runQueue [⟨"a", "g1"⟩, ⟨"b", "g2"⟩] ⟨0, []⟩
      [Decision.select "slug-1", Decision.skip]).manual_index ∧
    (runQueue [⟨"a", "g1"⟩, ⟨"b", "g2"⟩] ⟨0, []⟩
      [Decision.select "slug-1", Decision.skip]).manual_results =
      [] ++ decisionsFrom [⟨"a", "g1"⟩, ⟨"b", "g2"⟩] 0
        [Decision.select "slug-1", Decision.skip] ∧
    (decisionsFrom [⟨"a", "g1"⟩, ⟨"b", "g2"⟩] 0
      [Decision.select "slug-1", Decision.skip]).length =
      [Decision.select "slug-1", Decision.skip].countP isSelect :=
  c7_queue [⟨"a", "g1"⟩, ⟨"b", "g2"⟩] [Decision.select "slug-1", Decision.skip]
    ⟨0, []⟩ (by decide)

theorem scriptRun_preserves_final (s : Session) (c : Option Decision)
    (x : List (String × String)) (h : s.final_redirect_csv = some x) :
    (scriptRun s c).final_redirect_csv = some x := by
  cases c with
  | none => simp [scriptRun, step5, h]
  | some d =>
    cases hg : s.unmatched[s.manual_index]? with
    | none => simp [scriptRun, hg, step5, h]
    | some row => cases d <;> simp [scriptRun, hg, h]

theorem foldl_scriptRun_preserves :
    ∀ (clicks : List (Option Decision)) (s : Session) (x : List (String × String)),
      s.final_redirect_csv = some x →
      (clicks.foldl scriptRun s).final_redirect_csv = some x := by
  intro clicks
  induction clicks with
  | nil => intro s x h; exact h
  | cons c cs ih =>
    intro s x h
    exact ih (scriptRun s c) x (scriptRun_preserves_final s c x h)

theorem scriptRun_empty_auto (s : Session) (c : Option Decision)
    (hm : s.matched_final = []) (hf : s.final_redirect_csv = none) :
    (scriptRun s c).matched_final = [] ∧
    (scriptRun s c).final_redirect_csv = none := by
  cases c with
  | none => simp [scriptRun, step5, hf, hm, step5Merge, extractRedirectCols]
  | some d =>
    cases hg : s.unmatched[s.manual_index]? with
    | none => simp [scriptRun, hg, step5, hf, hm, step5Merge, extractRedirectCols]
    | some row => cases d <;> simp [scriptRun, hg, hm, hf]

theorem foldl_scriptRun_empty :
    ∀ (clicks : List (Option Decision)) (s : Session),
      s.matched_final = [] → s.final_redirect_csv = none →
      (clicks.foldl scriptRun s).final_redirect_csv = none := by
  intro clicks
  induction clicks with
  | nil => intro s _ hf; exact hf
  | cons c cs ih =>
    intro s hm hf
    obtain ⟨hm', hf'⟩ := scriptRun_empty_auto s c hm hf
    exact ih (scriptRun s c) hm' hf'

/-- Counterexample to C10: the claim asserts the exported table is
computed on the first render of the export step, in the run that
completes automatic matching.  With zero automatic matches the step-5
column selection raises a `KeyError` before the cache assignment, so after
that run `final_redirect_csv` is still `None` — the table was never
computed. -/
theorem c10_counterexample :
    (scriptRun ⟨[], [⟨"u", "blue jacket"⟩], 0, [], none⟩ none).final_redirect_csv =
      none := rfl

/-- Claim C10 as amended: when at least one automatic match exists, the
exported redirect table is cached in the same script run that completes
automatic matching — before any manual decision is submitted, so with an
empty manual list — and every later run (any mix of `Save & Next` clicks
and plain reruns) leaves that cache unchanged, so manual decisions never
appear in the export.  When no automatic match exists, the step-5 merge
raises on every run and the export is never computed: the cache stays
`None` through any sequence of runs. -/
theorem c10_export_frozen (auto : List MatchResult) (u : List CandRow)
    (clicks : List (Option Decision)) :
    (auto ≠ [] →
      (scriptRun ⟨auto, u, 0, [], none⟩ none).final_redirect_csv =
        some (mergeRedirects (autoPairs auto) []) ∧
      (clicks.foldl scriptRun
          (scriptRun ⟨auto, u, 0, [], none⟩ none)).final_redirect_csv =
        some (mergeRedirects (autoPairs auto) [])) ∧
    (auto = [] →
      (clicks.foldl scriptRun
          (scriptRun ⟨auto, u, 0, [], none⟩ none)).final_redirect_csv = none) := by
  constructor
  · intro hne
    have h0 : (scriptRun ⟨auto, u, 0, [], none⟩ none).final_redirect_csv =
        some (mergeRedirects (autoPairs auto) []) := by
      obtain ⟨a, l, rfl⟩ : ∃ a l, auto = a :: l := by
        cases auto with
        | nil => exact absurd rfl hne
        | cons a l => exact ⟨a, l, rfl⟩
      simp [scriptRun, step5, step5Merge, extractRedirectCols]
    exact ⟨h0, foldl_scriptRun_preserves clicks _ _ h0⟩
  · intro hempty
    subst hempty
    obtain ⟨hm, hf⟩ := scriptRun_empty_auto ⟨[], u, 0, [], none⟩ none rfl rfl
    exact foldl_scriptRun_empty clicks _ hm hf

/-- Witness for C10: one automatic match freezes the export through a
click and a rerun; zero automatic matches leave it uncomputed through the
same runs. -/
theorem c10_witness :
    (scriptRun ⟨[⟨"A", "X", none, none, none⟩], [⟨"u", "g"⟩], 0, [], none⟩
      none).final_redirect_csv =
      some (mergeRedirects (autoPairs [⟨"A", "X", none, none, none⟩]) []) ∧
    ([some (Decision.select "s"), none].foldl scriptRun
      (scriptRun ⟨[⟨"A", "X", none, none, none⟩], [⟨"u", "g"⟩], 0, [], none⟩
        none)).final_redirect_csv =
      some (mergeRedirects (autoPairs [⟨"A", "X", none, none, none⟩]) []) ∧
    ([some (Decision.select "s"), none].foldl scriptRun
      (scriptRun ⟨[], [⟨"u", "g"⟩], 0, [], none⟩ none)).final_redirect_csv = none :=
  ⟨((c10_export_frozen [⟨"A", "X", none, none, none⟩] [⟨"u", "g"⟩]
      [some (Decision.select "s"), none]).1 (by simp)).1,
    ((c10_export_frozen [⟨"A", "X", none, none, none⟩] [⟨"u", "g"⟩]
      [some (Decision.select "s"), none]).1 (by simp)).2,
    (c10_export_frozen [] [⟨"u", "g"⟩] [some (Decision.select "s"), none]).2 rfl⟩

end App
